import Mathlib

/-!
Shallow embedding of `agent.py` (class `CompanyResearchAgent`) from the
Enterprise_Research_Agent repository.

External services (the Gemini LLM, the Google CSE HTTP endpoint, DuckDuckGo,
yfinance, and the standard-library `json.loads`) are modelled as oracle
functions collected in an `Env` record.  The oracles for remote services take
a `Nat` step index (the number of external calls made so far) so that a
changing external world — in particular a non-deterministic LLM — can be
expressed; `json.loads` is deterministic and takes no index.  The mutable
fields of the Python object (`company_memory`, `tool_calls`, `chat_history`)
form an explicit `AgentState`, threaded through every operation, together
with an instrumentation trace `events` recording each external call and each
entry into the research flow.  `status_callback` arguments are pure
notifications with no effect on agent state and are omitted from the model.
Python exceptions that escape a method are modelled by an `Option` result
(`none` = the call raises).
-/

/-! ### JSON values (model of Python dict/list/str/int/bool/None trees) -/

mutual
/-- A JSON-compatible Python value.  Numbers are modelled as integers; no
claim depends on float arithmetic. -/
inductive JVal where
  | null : JVal
  | boolean : Bool → JVal
  | num : Int → JVal
  | str : String → JVal
  | arr : JArr → JVal
  | obj : JObj → JVal
  deriving DecidableEq

/-- A JSON array (Python list). -/
inductive JArr where
  | nil : JArr
  | cons : JVal → JArr → JArr
  deriving DecidableEq

/-- A JSON object (Python dict, insertion-ordered). -/
inductive JObj where
  | nil : JObj
  | cons : String → JVal → JObj → JObj
  deriving DecidableEq
end

/-- Length of a JSON array (Python `len`). -/
def JArr.length : JArr → Nat
  | .nil => 0
  | .cons _ rest => 1 + rest.length

/-- Number of keys of a JSON object (Python `len`). -/
def JObj.length : JObj → Nat
  | .nil => 0
  | .cons _ _ rest => 1 + rest.length

/-- Python `d.get(k, default)` on a JSON object. -/
def JObj.getD : JObj → String → JVal → JVal
  | .nil, _, d => d
  | .cons k' v rest, k, d => if k' = k then v else rest.getD k d

/-- Python `k in d` on a JSON object. -/
def JObj.hasKey : JObj → String → Bool
  | .nil, _ => false
  | .cons k' _ rest, k => k' = k || rest.hasKey k

/-- Python `d[k] = v` on an insertion-ordered dict: overwrite in place if the
key is present, append at the end otherwise. -/
def JObj.set : JObj → String → JVal → JObj
  | .nil, k, v => .cons k v .nil
  | .cons k' v' rest, k, v =>
      if k' = k then .cons k' v rest else .cons k' v' (rest.set k v)

/-- Is this JSON value a Python dict? -/
def JVal.isObj : JVal → Bool
  | .obj _ => true
  | _ => false

/-- Python `d.get(k, default)` on a JSON value that may or may not be a dict:
`none` models the `AttributeError` raised when `.get` is called on a
non-dict. -/
def jGetD : JVal → String → JVal → Option JVal
  | .obj o, k, d => some (o.getD k d)
  | _, _, _ => none

/-- Key-membership test on a JSON value; `false` for non-dicts. -/
def jHasKey : JVal → String → Bool
  | .obj o, k => o.hasKey k
  | _, _ => false

/-- Python truthiness of a JSON-compatible value. -/
def pyTruthy : JVal → Bool
  | .null => false
  | .boolean b => b
  | .num n => n ≠ 0
  | .str s => s ≠ ""
  | .arr .nil => false
  | .arr _ => true
  | .obj .nil => false
  | .obj _ => true

/-- Python `len` on a JSON value: defined for str/list/dict, raises
(`none`) otherwise. -/
def pyLen : JVal → Option Nat
  | .str s => some s.length
  | .arr a => some a.length
  | .obj o => some o.length
  | _ => none

/-- A JSON array all of whose elements are strings, as a Lean list; `none`
otherwise. -/
def JArr.asStrings : JArr → Option (List String)
  | .nil => some []
  | .cons (.str s) rest =>
      match rest.asStrings with
      | some l => some (s :: l)
      | none => none
  | .cons _ _ => none

mutual
/-- Python `json.dumps` (default separators) on a JSON value.  String
escaping is not modelled beyond the quotes; dumped text only ever feeds
opaque LLM prompts. -/
def JVal.dumps : JVal → String
  | .null => "null"
  | .boolean true => "true"
  | .boolean false => "false"
  | .num n => toString n
  | .str s => "\"" ++ s ++ "\""
  | .arr a => "[" ++ JArr.dumps a ++ "]"
  | .obj o => "\x7b" ++ JObj.dumps o ++ "\x7d"

/-- `json.dumps` of the elements of a JSON array, comma-separated. -/
def JArr.dumps : JArr → String
  | .nil => ""
  | .cons v .nil => JVal.dumps v
  | .cons v rest => JVal.dumps v ++ ", " ++ JArr.dumps rest

/-- `json.dumps` of the entries of a JSON object, comma-separated. -/
def JObj.dumps : JObj → String
  | .nil => ""
  | .cons k v .nil => "\"" ++ k ++ "\": " ++ JVal.dumps v
  | .cons k v rest => "\"" ++ k ++ "\": " ++ JVal.dumps v ++ ", " ++ JObj.dumps rest
end

/-! ### Python string primitives used by `agent.py` -/

/-- The `{` character (kept out of string literals). -/
def lbrace : Char := Char.ofNat 123

/-- The `}` character (kept out of string literals). -/
def rbrace : Char := Char.ofNat 125

/-- Python `s[:n]` (character slicing). -/
def strTake (s : String) (n : Nat) : String := String.mk (s.toList.take n)

/-- Python `s.strip()`. -/
def pyStrip (s : String) : String :=
  String.mk (((s.toList.dropWhile Char.isWhitespace).reverse.dropWhile Char.isWhitespace).reverse)

/-- Does `pat` occur as a contiguous sublist of `s`?  (Python `pat in s`.) -/
def listContainsSub : List Char → List Char → Bool
  | [], pat => pat.isEmpty
  | c :: rest, pat => pat.isPrefixOf (c :: rest) || listContainsSub rest pat

/-- Python `pat in s` on strings. -/
def strContainsSub (s pat : String) : Bool := listContainsSub s.toList pat.toList

/-- One replacement pass for `pyReplace`, fuelled by the length of the
subject list (the fuel is never exhausted for a non-empty pattern). -/
def replaceFuel : Nat → List Char → List Char → List Char → List Char
  | 0, s, _, _ => s
  | _ + 1, [], _, _ => []
  | fuel + 1, c :: rest, pat, rep =>
      if pat.isPrefixOf (c :: rest) && !pat.isEmpty then
        rep ++ replaceFuel fuel ((c :: rest).drop pat.length) pat rep
      else
        c :: replaceFuel fuel rest pat rep

/-- Python `s.replace(pat, rep)` for a non-empty pattern: replaces all
non-overlapping occurrences left to right. -/
def pyReplace (s pat rep : String) : String :=
  String.mk (replaceFuel s.toList.length s.toList pat.toList rep.toList)

/-- Index of the first occurrence of `c` in `s` (Python `s.find(c)`, with
`none` for `-1`). -/
def pyFindChar (s : String) (c : Char) : Option Nat :=
  go s.toList 0
where
  /-- Scan left to right carrying the current index. -/
  go : List Char → Nat → Option Nat
    | [], _ => none
    | x :: rest, i => if x = c then some i else go rest (i + 1)

/-- Index of the last occurrence of `c` in `s` (Python `s.rfind(c)`, with
`none` for `-1`). -/
def pyRFindChar (s : String) (c : Char) : Option Nat :=
  match pyFindChar (String.mk s.toList.reverse) c with
  | some i => some (s.toList.length - 1 - i)
  | none => none

/-- Python `s[a:b]` (character slicing, clamped like Python slices). -/
def pySlice (s : String) (a b : Nat) : String :=
  String.mk ((s.toList.drop a).take (b - a))

/-- Python `s.upper()` (ASCII, which covers every string the agent builds). -/
def pyUpper (s : String) : String := String.mk (s.toList.map Char.toUpper)

/-! ### The regex `\b[A-Z]{1,5}\b` of `fetch_financials` -/

/-- Python `\w` (ASCII range; the agent's inputs are modelled as ASCII). -/
def isWordChar (c : Char) : Bool := c.isAlpha || c.isDigit || c = '_'

/-- Is `c` an uppercase ASCII letter (the regex class `[A-Z]`)? -/
def isUpperAZ (c : Char) : Bool := 'A' ≤ c && c ≤ 'Z'

/-- Scanner for `re.search(r"\b[A-Z]{1,5}\b", s)`: walks the character list
carrying the previous character.  A match starts at a position with a word
boundary on its left, consists of the maximal uppercase run there (a shorter
greedy take always fails the trailing `\b`), and requires the run to have
length at most 5 and a word boundary on its right.  Returns the leftmost
match. -/
def tickerScan : Option Char → List Char → Option String
  | _, [] => none
  | prev, c :: rest =>
      let boundaryLeft := match prev with
        | none => true
        | some p => !(isWordChar p)
      if boundaryLeft && isUpperAZ c then
        let runTail := rest.takeWhile isUpperAZ
        let run := c :: runTail
        let after := rest.drop runTail.length
        let boundaryRight := match after with
          | [] => true
          | a :: _ => !(isWordChar a)
        if run.length ≤ 5 && boundaryRight then
          some (String.mk run)
        else
          tickerScan (some c) rest
      else
        tickerScan (some c) rest

/-- `re.search(r"\b[A-Z]{1,5}\b", s)`, returning the matched text. -/
def reSearchTicker (s : String) : Option String := tickerScan none s.toList

/-! ### External-world model -/

/-- One item of the Google CSE JSON response (`data["items"]`); fields are
read with `.get`, so each may be absent (`None`). -/
structure SearchItem where
  title : Option String
  link : Option String
  snippet : Option String
  deriving DecidableEq

/-- One normalized search result, `{"title": ..., "link": ..., "snippet": ...}`. -/
structure SearchResult where
  title : Option String
  link : Option String
  snippet : Option String
  deriving DecidableEq

/-- One raw DuckDuckGo hit (`ddgs.text` yields dicts with these keys). -/
structure DDGHit where
  title : String
  href : String
  body : String
  deriving DecidableEq

/-- Outcome of the primary-search HTTP GET: the request may raise, or return
a response with a status code whose body `res.json()` either parses to an
`items` list or raises (`none`). -/
inductive HttpResult where
  | exn : HttpResult
  | resp : Nat → Option (List SearchItem) → HttpResult
  deriving DecidableEq

/-- Outcome of the yfinance block for a ticker: the provider may raise
(message `msg`), serve `fast_info` with a truthy `last_price`, serve an
`info` dict containing `regularMarketPrice`, or have no usable data.
Field payloads are JSON values so that `None` fields are representable. -/
inductive YfOutcome where
  | raises (msg : String) : YfOutcome
  | fastData (market_cap price currency : JVal) : YfOutcome
  | infoData (market_cap sector : JVal) (summary : String) : YfOutcome
  | nodata : YfOutcome
  deriving DecidableEq

/-- The oracles for everything outside the agent's own code, plus the two
optional search credentials held by the agent instance.  Remote-service
oracles take the current external-call count as a step index, so the world
may answer differently over time; `jsonParse` models the deterministic
`json.loads` (`none` = `JSONDecodeError`). -/
structure Env where
  google_api_key : Option String
  cse_id : Option String
  http : Nat → String → Nat → HttpResult
  ddg : Option (Nat → String → Nat → Except String (List DDGHit))
  yf : Nat → String → YfOutcome
  llm : Nat → String → String
  jsonParse : String → Option JVal

/-! ### Agent state -/

/-- One entry of `self.tool_calls`; the timestamp is modelled by the
external-call count at logging time. -/
structure ToolCallRecord where
  tool : String
  input : String
  output : String
  timestamp : Nat
  deriving DecidableEq

/-- One entry of `self.chat_history`. -/
structure ChatMsg where
  role : String
  text : String
  deriving DecidableEq

/-- One entry of `self.company_memory`: the dict written by
`perform_deep_research` with keys `text`, `original_text`, `json`. -/
structure CompanyPlan where
  text : String
  original_text : String
  json : JVal
  deriving DecidableEq

/-- Instrumentation: one external call, or one entry into the full research
flow (`perform_deep_research`). -/
inductive ExtEvent where
  | httpCall (query : String) : ExtEvent
  | ddgCall (query : String) : ExtEvent
  | yfCall (ticker : String) : ExtEvent
  | llmCall (prompt : String) : ExtEvent
  | research (company : String) : ExtEvent
  deriving DecidableEq

/-- The mutable fields of the `CompanyResearchAgent` instance.
`company_memory` is an insertion-ordered association list, matching the
semantics of a Python dict. -/
structure AgentState where
  company_memory : List (String × CompanyPlan)
  tool_calls : List ToolCallRecord
  chat_history : List ChatMsg
  events : List ExtEvent
  deriving DecidableEq

/-- The state built by `__init__`. -/
def initState : AgentState := ⟨[], [], [], []⟩

/-- Python dict lookup `m.get(k)` on the memory store. -/
def memLookup : List (String × CompanyPlan) → String → Option CompanyPlan
  | [], _ => none
  | (k, v) :: rest, key => if k = key then some v else memLookup rest key

/-- Python dict assignment `m[k] = v` on the memory store: overwrite in
place when the key exists, append otherwise. -/
def memInsert : List (String × CompanyPlan) → String → CompanyPlan → List (String × CompanyPlan)
  | [], key, v => [(key, v)]
  | (k, w) :: rest, key, v =>
      if k = key then (k, v) :: rest else (k, w) :: memInsert rest key v

/-- Python `list(m.keys())`. -/
def memKeys (m : List (String × CompanyPlan)) : List String := m.map Prod.fst

/-- Append an instrumentation event. -/
def pushEvent (st : AgentState) (e : ExtEvent) : AgentState :=
  { st with events := st.events ++ [e] }

/-- `self._log_tool(tool, inp, out)`: append a record with both summaries
truncated to 300 characters. -/
def logTool (st : AgentState) (tool inp out : String) : AgentState :=
  { st with tool_calls :=
      st.tool_calls ++ [⟨tool, strTake inp 300, strTake out 300, st.events.length⟩] }

/-- One `safe_generate_text` call: records the event and asks the LLM
oracle.  `safe_generate_text` never raises (it returns an error string on an
exception), so the oracle is a total function. -/
def llmStep (env : Env) (st : AgentState) (prompt : String) : AgentState × String :=
  (pushEvent st (.llmCall prompt), env.llm st.events.length prompt)

/-! ### `clean_json_string` -/

/-- `clean_json_string(json_str)` from `agent.py`: scrub Markdown fences,
then strip whitespace. -/
def clean_json_string (json_str : String) : String :=
  let s :=
    if strContainsSub json_str "```json" then
      pyReplace (pyReplace json_str "```json" "") "```" ""
    else if strContainsSub json_str "```" then
      pyReplace json_str "```" ""
    else json_str
  pyStrip s

/-! ### `search_web` -/

/-- Section B of `search_web`: the DuckDuckGo fallback.  When the module
`DDGS` is unavailable (`env.ddg = none`) the block is skipped and the trailing
`return []` runs; otherwise the call either succeeds (results are mapped
and logged) or raises (the error is logged and `[]` is returned). -/
def searchFallback (env : Env) (st : AgentState) (query : String) (top_k : Nat) :
    AgentState × List SearchResult :=
  match env.ddg with
  | none => (st, [])
  | some d =>
      let st1 := pushEvent st (.ddgCall query)
      match d st.events.length query top_k with
      | .ok raw =>
          let results := raw.map (fun r => SearchResult.mk (some r.title) (some r.href) (some r.body))
          (logTool st1 "DuckDuckGo" query ("Found " ++ toString results.length), results)
      | .error e => (logTool st1 "Search Error" query e, [])

/-- `search_web(query, top_k)`: try Google CSE only when both credentials
are configured; on HTTP 200 with a parseable body, map the items and return
immediately; on an exception, a non-200 status, or a body-parse failure,
fall back to DuckDuckGo. -/
def search_web (env : Env) (st : AgentState) (query : String) (top_k : Nat) :
    AgentState × List SearchResult :=
  if env.google_api_key.isSome && env.cse_id.isSome then
    let st1 := pushEvent st (.httpCall query)
    match env.http st.events.length query top_k with
    | .exn => searchFallback env st1 query top_k
    | .resp status body =>
        if status = 200 then
          match body with
          | some items =>
              let results := items.map (fun i => SearchResult.mk i.title i.link i.snippet)
              (logTool st1 "Google Search" query ("Found " ++ toString results.length), results)
          | none => searchFallback env st1 query top_k
        else searchFallback env st1 query top_k
  else
    searchFallback env st query top_k

/-! ### `fetch_financials` -/

/-- The `try` block of `fetch_financials` once a candidate ticker exists:
query yfinance and shape the result dict. -/
def yfFetch (env : Env) (st : AgentState) (ticker : String) : AgentState × JVal :=
  let st1 := pushEvent st (.yfCall ticker)
  match env.yf st.events.length ticker with
  | .raises msg => (st1, JVal.obj (.cons "error" (.str msg) .nil))
  | .fastData mc price cur =>
      let data := JVal.obj (.cons "symbol" (.str ticker)
        (.cons "market_cap" mc (.cons "price" price (.cons "currency" cur
          (.cons "source" (.str "yfinance fast_info") .nil)))))
      (logTool st1 "YFinance" ticker "Success", data)
  | .infoData mc sector summary =>
      let data := JVal.obj (.cons "symbol" (.str ticker)
        (.cons "market_cap" mc (.cons "sector" sector
          (.cons "summary" (.str (strTake summary 500)) .nil))))
      (logTool st1 "YFinance" ticker "Success", data)
  | .nodata => (st1, JVal.obj (.cons "error" (.str "No financial data available") .nil))

/-- `fetch_financials(company)`: detect a ticker with
`re.search(r"\b[A-Z]{1,5}\b", company)`; failing that, run a one-result
search for `"<company> stock ticker symbol"` and scan the UPPERCASED title
of the first hit.  Both search adapters always populate the `"title"` key,
so the default of `hits[0].get("title", "")` is dead code; on the Google
path the stored value is `i.get("title")` and can be `None`, on which
`.upper()` raises an uncaught `AttributeError` — modelled by `none`.  With
no candidate ticker, the error dict is returned without touching the
market-data provider. -/
def fetch_financials (env : Env) (st : AgentState) (company : String) :
    Option (AgentState × JVal) :=
  match reSearchTicker company with
  | some t => some (yfFetch env st t)
  | none =>
      let s := search_web env st (company ++ " stock ticker symbol") 1
      match s.2 with
      | [] => some (s.1, JVal.obj (.cons "error" (.str "Could not detect ticker.") .nil))
      | h :: _ =>
          match h.title with
          | none => none
          | some t0 =>
              match reSearchTicker (pyUpper t0) with
              | some t => some (yfFetch env s.1 t)
              | none =>
                  some (s.1, JVal.obj (.cons "error" (.str "Could not detect ticker.") .nil))

/-! ### `classify_intent` -/

/-- The fixed classification prompt (the f-string of `classify_intent`). -/
def classifyPrompt (user_text : String) : String :=
  "\n        Analyze: \"" ++ user_text ++ "\"\n        \n        Return valid JSON ONLY:\n        \x7b\n            \"intent\": \"research\" | \"follow_up\" | \"compare\" | \"off_topic\" | \"greeting\",\n            \"companies\": [\"List\", \"of\", \"companies\"]\n        \x7d\n        "

/-- The safe default `{"intent": "research", "companies": []}`. -/
def defaultIntent : JVal :=
  JVal.obj (.cons "intent" (.str "research") (.cons "companies" (.arr .nil) .nil))

/-- The classification LLM call. -/
def classifyRaw (env : Env) (st : AgentState) (user_text : String) : AgentState × String :=
  llmStep env st (classifyPrompt user_text)

/-- The fence-stripped classification reply (`res` after `clean_json_string`). -/
def classifyCleaned (env : Env) (st : AgentState) (user_text : String) : String :=
  clean_json_string (classifyRaw env st user_text).2

/-- `end = res.rfind("}") + 1` of `classify_intent` (Python's `-1 + 1 = 0`
when `}` is absent). -/
def classifyStop (env : Env) (st : AgentState) (user_text : String) : Nat :=
  match pyRFindChar (classifyCleaned env st user_text) rbrace with
  | some j => j + 1
  | none => 0

/-- `classify_intent(user_text)`: ask the LLM, scrub fences, isolate the
substring from the first `{` to the last `}`, and parse it; on a missing
brace, a parse failure, or any exception, return the safe default. -/
def classify_intent (env : Env) (st : AgentState) (user_text : String) : AgentState × JVal :=
  match pyFindChar (classifyCleaned env st user_text) lbrace with
  | none => ((classifyRaw env st user_text).1, defaultIntent)
  | some start =>
      match env.jsonParse (pySlice (classifyCleaned env st user_text) start
          (classifyStop env st user_text)) with
      | some j => ((classifyRaw env st user_text).1, j)
      | none => ((classifyRaw env st user_text).1, defaultIntent)

/-! ### `perform_deep_research`, split into its named stages -/

/-- A search result as the JSON value `{"title": ..., "link": ..., "snippet": ...}`
(absent fields serialize as `null`). -/
def searchResultToJVal (r : SearchResult) : JVal :=
  let f : Option String → JVal := fun o => match o with
    | some s => .str s
    | none => .null
  .obj (.cons "title" (f r.title) (.cons "link" (f r.link) (.cons "snippet" (f r.snippet) .nil)))

/-- A list of search results as a JSON array. -/
def searchResultsToJArr : List SearchResult → JArr
  | [] => .nil
  | r :: rest => .cons (searchResultToJVal r) (searchResultsToJArr rest)

/-- The step-1 report prompt of `perform_deep_research` (search and finance
context already serialized). -/
def mkReportPrompt (company_name searchDump finDump : String) : String :=
  "\n        Role: Senior Strategy Consultant.\n        Task: Create a COMPREHENSIVE Strategic Account Plan for \x27" ++ company_name ++ "\x27.\n        \n        Sources:\n        Search: " ++ searchDump ++ "\n        Finance: " ++ finDump ++ "\n        \n        Instructions:\n        1. Generate a detailed, multi-section report in Markdown.\n        2. **IMPORTANT:** Do NOT include a title page, \"Date:\", \"Prepared by:\", or any introductory conversation.\n        3. Start DIRECTLY with the first header (e.g., # Executive Summary).\n        4. Sections required:\n           - **Executive Summary**: High-level strategic overview.\n           - **Product & Services Portfolio**: Detailed breakdown of offerings.\n           - **Market Analysis**: Competitive landscape and position.\n           - **Financial Health**: Analysis of the provided financial metrics.\n           - **SWOT Analysis**: Detailed Strengths, Weaknesses, Opportunities, Threats.\n           - **Strategic Recommendations**: Actionable next steps.\n        "

/-- The step-2 extraction prompt of `perform_deep_research`. -/
def mkJsonPrompt (company_name report_text : String) : String :=
  "\n        You are a Data Extraction Specialist.\n        \n        INPUT TEXT:\n        " ++ strTake report_text 20000 ++ " (Truncated for safety if extremely long)\n        \n        INSTRUCTIONS:\n        Convert the insights from the text above into a valid JSON object.\n        Do NOT include Markdown formatting (no ```json). Just the raw JSON string.\n        \n        JSON Structure:\n        \x7b\n            \"company_name\": \"" ++ company_name ++ "\",\n            \"overview\": \"Summary of the overview section...\",\n            \"products_services\": [\"List of key products...\"],\n            \"market_position\": \"Summary of market position...\",\n            \"swot_analysis\": \x7b \"strengths\": [], \"weaknesses\": [], \"opportunities\": [], \"threats\": [] \x7d,\n            \"strategic_recommendations\": [\"List of recommendations...\"]\n        \x7d\n        "

/-- Research stage 1: record entry into the flow, then
`search_web(f"{company_name} strategic analysis news")`. -/
def researchSearch (env : Env) (st : AgentState) (company_name : String) :
    AgentState × List SearchResult :=
  search_web env (pushEvent st (.research company_name)) (company_name ++ " strategic analysis news") 5

/-- Research stage 2: `fetch_financials(company_name)`; `none` propagates
the `AttributeError` described at `fetch_financials` out of the flow. -/
def researchFin (env : Env) (st : AgentState) (company_name : String) :
    Option (AgentState × JVal) :=
  fetch_financials env (researchSearch env st company_name).1 company_name

/-- The report prompt actually sent, with `json.dumps(search_data)[:3000]`
and `json.dumps(fin_data)` spliced in. -/
def researchReportPrompt (company_name : String) (searchRes : List SearchResult)
    (finVal : JVal) : String :=
  mkReportPrompt company_name
    (strTake (JVal.dumps (.arr (searchResultsToJArr searchRes))) 3000)
    (JVal.dumps finVal)

/-- Research stage 3, after a completed financial lookup `fin`: the
narrative LLM call producing `report_text`. -/
def researchNarrativeStep (env : Env) (company_name : String)
    (searchRes : List SearchResult) (fin : AgentState × JVal) : AgentState × String :=
  llmStep env fin.1 (researchReportPrompt company_name searchRes fin.2)

/-- The narrative `report_text` of a completed research run. -/
def researchNarrative (env : Env) (company_name : String)
    (searchRes : List SearchResult) (fin : AgentState × JVal) : String :=
  (researchNarrativeStep env company_name searchRes fin).2

/-- Research stage 4: the extraction LLM call producing `json_str`. -/
def researchExtractionStep (env : Env) (company_name : String)
    (searchRes : List SearchResult) (fin : AgentState × JVal) : AgentState × String :=
  llmStep env (researchNarrativeStep env company_name searchRes fin).1
    (mkJsonPrompt company_name (researchNarrative env company_name searchRes fin))

/-- The fence-stripped extraction output handed to `json.loads`. -/
def researchCleanedExtraction (env : Env) (company_name : String)
    (searchRes : List SearchResult) (fin : AgentState × JVal) : String :=
  clean_json_string (researchExtractionStep env company_name searchRes fin).2

/-- The structured `json_data` a research run stores: the parsed extraction
output, or `{"error": "Failed to parse JSON", "raw": <unparsed text>}`. -/
def researchJsonData (env : Env) (company_name : String)
    (searchRes : List SearchResult) (fin : AgentState × JVal) : JVal :=
  match env.jsonParse (researchCleanedExtraction env company_name searchRes fin) with
  | some j => j
  | none =>
      JVal.obj (.cons "error" (.str "Failed to parse JSON")
        (.cons "raw" (.str (researchCleanedExtraction env company_name searchRes fin)) .nil))

/-- The tail of `perform_deep_research` past the financial lookup: the two
LLM calls, then the unconditional assignment
`self.company_memory[company_name] = {"text": report_text,
"original_text": report_text, "json": json_data}`, returning the report. -/
def researchCommit (env : Env) (company_name : String)
    (searchRes : List SearchResult) (fin : AgentState × JVal) : AgentState × String :=
  let report_text := researchNarrative env company_name searchRes fin
  let st4 := (researchExtractionStep env company_name searchRes fin).1
  let plan : CompanyPlan := ⟨report_text, report_text,
    researchJsonData env company_name searchRes fin⟩
  let mem := memInsert st4.company_memory company_name plan
  ({ st4 with company_memory := mem }, report_text)

/-- `perform_deep_research(company_name)`: search, financial lookup — whose
uncaught `AttributeError` propagates out of the method (`none`) — then the
two LLM calls and the unconditional store. -/
def perform_deep_research (env : Env) (st : AgentState) (company_name : String) :
    Option (AgentState × String) :=
  (researchFin env st company_name).map
    (researchCommit env company_name (researchSearch env st company_name).2)

/-! ### `answer_followup` -/

/-- `answer_followup(company, question)`: fetch the stored report text
(empty when the company or the entry is missing), truncate to 5000
characters, and ask the LLM. -/
def answer_followup (env : Env) (st : AgentState) (company question : String) :
    AgentState × String :=
  let context_text := strTake
    (match memLookup st.company_memory company with
      | some p => p.text
      | none => "") 5000
  llmStep env st ("Context Report: " ++ context_text ++ ". User Question: " ++ question ++ ". Answer professionally.")

/-! ### `compare_companies` -/

/-- The loop of `compare_companies`: research any company with no memory
entry (a research crash propagates), then read `self.company_memory[c]` — a
direct indexing whose failure (`none`) would be an uncaught `KeyError` —
and collect its `json` into `data_points`. -/
def compareLoop (env : Env) (st : AgentState) : List String → JObj → Option (AgentState × JObj)
  | [], acc => some (st, acc)
  | c :: rest, acc =>
      match (if (memLookup st.company_memory c).isSome then some st
             else (perform_deep_research env st c).map Prod.fst) with
      | none => none
      | some st1 =>
          match memLookup st1.company_memory c with
          | none => none
          | some plan => compareLoop env st1 rest (acc.set c plan.json)

/-- `compare_companies(companies)`: ensure every company has an entry, then
ask the LLM once for a comparison table over the collected JSON objects. -/
def compare_companies (env : Env) (st : AgentState) (companies : List String) :
    Option (AgentState × String) :=
  match compareLoop env st companies .nil with
  | none => none
  | some p =>
      some (llmStep env p.1
        ("Compare these companies: " ++ JVal.dumps (.obj p.2) ++ ". Output a Markdown table and key insights."))

/-! ### `update_company_section` -/

/-- The rewrite prompt of `update_company_section` (the updated JSON already
serialized). -/
def mkEditPrompt (sect dumped : String) : String :=
  "\n        The user has manually updated the \x27" ++ sect ++ "\x27 section of the account plan.\n        Updated JSON Data: " ++ dumped ++ "\n        \n        Task: Rewrite the FULL textual report to reflect this change.\n        Constraints:\n        1. STRICTLY maintain the original professional format.\n        2. Do NOT include \"Here is the updated report\" or any conversational filler.\n        3. Do NOT include dates or prepared by lines.\n        4. Start directly with the Markdown content.\n        "

/-- `update_company_section(company, section, new_val)`: with no memory
entry, return the error string untouched; otherwise assign
`mem["json"][section] = new_val` (a plain dict assignment — it adds the key
when absent), regenerate the full text with one LLM call, overwrite
`mem["text"]`, and return the success string.  `none` models the
`TypeError` raised when the stored `json` is not a dict. -/
def update_company_section (env : Env) (st : AgentState) (company sect : String) (new_val : JVal) :
    Option (AgentState × String) :=
  match memLookup st.company_memory company with
  | none => some (st, "Error: Company not found")
  | some mem =>
      match mem.json with
      | .obj o =>
          let newJson := JVal.obj (o.set sect new_val)
          let mem1 := memInsert st.company_memory company { mem with json := newJson }
          let st1 := { st with company_memory := mem1 }
          let s := llmStep env st1 (mkEditPrompt sect (JVal.dumps newJson))
          let mem2 := memInsert s.1.company_memory company { mem with json := newJson, text := s.2 }
          let st3 := { s.1 with company_memory := mem2 }
          some (st3, "Report Regenerated Successfully.")
      | _ => none

/-! ### `ask`, split into its named stages -/

/-- The fixed off-topic refusal. -/
def offTopicReply : String :=
  "I specialize in corporate strategy. Please ask me to research a company."

/-- The fixed greeting. -/
def greetingReply : String :=
  "Hello! I am your Enterprise Research Agent. Ask me to \x27Analyze Tesla\x27 or \x27Compare Ford and GM\x27."

/-- `ask` stage 1: append the user utterance to `chat_history`. -/
def askChatState (st : AgentState) (user_text : String) : AgentState :=
  { st with chat_history := st.chat_history ++ [⟨"user", user_text⟩] }

/-- `ask` stage 2: classify the utterance. -/
def askClassify (env : Env) (st : AgentState) (user_text : String) : AgentState × JVal :=
  classify_intent env (askChatState st user_text) user_text

/-- `intent = intent_data.get("intent", "research")`; `none` models the
`AttributeError` on a non-dict classification result. -/
def askIntent (env : Env) (st : AgentState) (user_text : String) : Option JVal :=
  jGetD (askClassify env st user_text).2 "intent" (.str "research")

/-- `companies = intent_data.get("companies", [])`. -/
def askCompanies (env : Env) (st : AgentState) (user_text : String) : Option JVal :=
  jGetD (askClassify env st user_text).2 "companies" (.arr .nil)

/-- `company = companies[0] if companies else user_text`: `none` models the
exception on a truthy value that is neither a list with a string head nor a
string (a non-string head is a value the model does not carry further). -/
def companyZero (companies : JVal) (user_text : String) : Option String :=
  if pyTruthy companies then
    match companies with
    | .arr (.cons (.str s) _) => some s
    | .str s => some (String.mk [s.toList.headD ' '])
    | _ => none
  else some user_text

/-- The tail of `ask` past the three early returns: pick the company,
divert a follow-up with non-empty memory to the most recently inserted key,
otherwise run the full research flow. -/
def askTail (env : Env) (st1 : AgentState) (intent companies : JVal) (user_text : String) :
    Option (AgentState × String) :=
  match companyZero companies user_text with
  | none => none
  | some company =>
      if intent = JVal.str "follow_up" ∧ st1.company_memory ≠ [] then
        some (answer_followup env st1 ((memKeys st1.company_memory).getLastD "") user_text)
      else
        perform_deep_research env st1 company

/-- The dispatch of `ask` on the classified intent and company list: the two
fixed replies, the comparison branch (guarded by `len(companies) >= 2`,
which raises — `none` — on a non-sizeable value), and otherwise the shared
tail.  The comparison branch converts the classified company list to
strings; a list with non-string entries is outside the model (`none`). -/
def askDispatch (env : Env) (st1 : AgentState) (intent companies : JVal) (user_text : String) :
    Option (AgentState × String) :=
  if intent = JVal.str "off_topic" then some (st1, offTopicReply)
  else if intent = JVal.str "greeting" then some (st1, greetingReply)
  else if intent = JVal.str "compare" then
    match pyLen companies with
    | none => none
    | some n =>
        if 2 ≤ n then
          match companies with
          | .arr a =>
              match a.asStrings with
              | some cs => compare_companies env st1 cs
              | none => none
          | _ => none
        else askTail env st1 intent companies user_text
  else askTail env st1 intent companies user_text

/-- `ask(user_text)`: record the utterance, classify, and dispatch on the
intent; the exceptions modelled inside `askIntent`/`askCompanies` propagate
(`Option.bind`). -/
def ask (env : Env) (st : AgentState) (user_text : String) : Option (AgentState × String) :=
  (askIntent env st user_text).bind (fun intent =>
    (askCompanies env st user_text).bind (fun companies =>
      askDispatch env (askClassify env st user_text).1 intent companies user_text))

/-! ### Trace helpers for the theorems -/

/-- The companies for which the full research flow was entered, in order. -/
def researchTrace (evts : List ExtEvent) : List String :=
  evts.filterMap (fun e => match e with
    | .research c => some c
    | _ => none)

/-- The tickers sent to the market-data provider, in order. -/
def yfTrace (evts : List ExtEvent) : List String :=
  evts.filterMap (fun e => match e with
    | .yfCall t => some t
    | _ => none)

/-- The queries sent to the DuckDuckGo fallback, in order. -/
def ddgTrace (evts : List ExtEvent) : List String :=
  evts.filterMap (fun e => match e with
    | .ddgCall q => some q
    | _ => none)

/-! ### Memory-store lemmas -/

theorem memLookup_memInsert_self (m : List (String × CompanyPlan)) (k : String) (v : CompanyPlan) :
    memLookup (memInsert m k v) k = some v := by
  induction m with
  | nil => simp [memInsert, memLookup]
  | cons hd tl ih =>
      obtain ⟨k', w⟩ := hd
      by_cases h : k' = k
      · simp [memInsert, memLookup, h]
      · simp [memInsert, memLookup, h, ih]

theorem memLookup_memInsert_ne (m : List (String × CompanyPlan)) (k k' : String) (v : CompanyPlan)
    (h : k' ≠ k) : memLookup (memInsert m k v) k' = memLookup m k' := by
  have hks : k ≠ k' := Ne.symm h
  induction m with
  | nil => simp [memInsert, memLookup, hks]
  | cons hd tl ih =>
      obtain ⟨k₀, w⟩ := hd
      by_cases h0 : k₀ = k
      · subst h0
        simp [memInsert, memLookup, hks]
      · simp [memInsert, memLookup, h0, ih]

/-! ### Trace lemmas -/

theorem researchTrace_append (a b : List ExtEvent) :
    researchTrace (a ++ b) = researchTrace a ++ researchTrace b :=
  List.filterMap_append a b _

theorem yfTrace_append (a b : List ExtEvent) :
    yfTrace (a ++ b) = yfTrace a ++ yfTrace b :=
  List.filterMap_append a b _

/-! ### Per-operation conservation lemmas: which parts of the state each
operation can touch, and what it appends to the instrumentation trace. -/

theorem searchFallback_state (env : Env) (st : AgentState) (q : String) (k : Nat) :
    (searchFallback env st q k).1.company_memory = st.company_memory ∧
    researchTrace (searchFallback env st q k).1.events = researchTrace st.events ∧
    yfTrace (searchFallback env st q k).1.events = yfTrace st.events := by
  unfold searchFallback
  cases hd : env.ddg with
  | none => simp
  | some d =>
      cases hr : d st.events.length q k with
      | ok raw =>
          simp [hr, logTool, pushEvent, researchTrace_append, yfTrace_append,
            researchTrace, yfTrace]
      | error e =>
          simp [hr, logTool, pushEvent, researchTrace_append, yfTrace_append,
            researchTrace, yfTrace]

theorem search_web_state (env : Env) (st : AgentState) (q : String) (k : Nat) :
    (search_web env st q k).1.company_memory = st.company_memory ∧
    researchTrace (search_web env st q k).1.events = researchTrace st.events ∧
    yfTrace (search_web env st q k).1.events = yfTrace st.events := by
  have hpush : researchTrace (pushEvent st (ExtEvent.httpCall q)).events = researchTrace st.events ∧
      yfTrace (pushEvent st (ExtEvent.httpCall q)).events = yfTrace st.events := by
    simp [pushEvent, researchTrace_append, yfTrace_append, researchTrace, yfTrace]
  unfold search_web
  by_cases hc : env.google_api_key.isSome && env.cse_id.isSome
  · simp only [hc, if_true]
    cases hr : env.http st.events.length q k with
    | exn =>
        have h := searchFallback_state env (pushEvent st (.httpCall q)) q k
        have hp := hpush
        simp only [pushEvent] at h hp ⊢
        exact ⟨h.1, h.2.1.trans hp.1, h.2.2.trans hp.2⟩
    | resp status body =>
        by_cases hs : status = 200
        · subst hs
          cases body with
          | some items =>
              simp [logTool, pushEvent, researchTrace_append, yfTrace_append,
                researchTrace, yfTrace]
          | none =>
              have h := searchFallback_state env (pushEvent st (.httpCall q)) q k
              have hp := hpush
              simp only [pushEvent] at h hp ⊢
              simp only [if_true]
              exact ⟨h.1, h.2.1.trans hp.1, h.2.2.trans hp.2⟩
        · have h := searchFallback_state env (pushEvent st (.httpCall q)) q k
          have hp := hpush
          simp only [hs, if_false, pushEvent] at h hp ⊢
          exact ⟨h.1, h.2.1.trans hp.1, h.2.2.trans hp.2⟩
  · simp only [hc, if_false]
    exact searchFallback_state env st q k

theorem yfFetch_state (env : Env) (st : AgentState) (t : String) :
    (yfFetch env st t).1.company_memory = st.company_memory ∧
    researchTrace (yfFetch env st t).1.events = researchTrace st.events ∧
    yfTrace (yfFetch env st t).1.events = yfTrace st.events ++ [t] := by
  unfold yfFetch
  cases hr : env.yf st.events.length t with
  | raises msg =>
      simp [hr, logTool, pushEvent, researchTrace_append, yfTrace_append, researchTrace, yfTrace]
  | fastData mc price cur =>
      simp [hr, logTool, pushEvent, researchTrace_append, yfTrace_append, researchTrace, yfTrace]
  | infoData mc sector summary =>
      simp [hr, logTool, pushEvent, researchTrace_append, yfTrace_append, researchTrace, yfTrace]
  | nodata =>
      simp [hr, logTool, pushEvent, researchTrace_append, yfTrace_append, researchTrace, yfTrace]

theorem fetch_financials_state (env : Env) (st : AgentState) (company : String)
    (q : AgentState × JVal) (h : fetch_financials env st company = some q) :
    q.1.company_memory = st.company_memory ∧
    researchTrace q.1.events = researchTrace st.events := by
  unfold fetch_financials at h
  cases h0 : reSearchTicker company with
  | some t =>
      simp only [h0] at h
      cases h
      exact ⟨(yfFetch_state env st t).1, (yfFetch_state env st t).2.1⟩
  | none =>
      simp only [h0] at h
      have hs := search_web_state env st (company ++ " stock ticker symbol") 1
      cases h1 : (search_web env st (company ++ " stock ticker symbol") 1).2 with
      | nil =>
          simp only [h1] at h
          cases h
          exact ⟨hs.1, hs.2.1⟩
      | cons hit rest =>
          simp only [h1] at h
          cases ht : hit.title with
          | none =>
              simp only [ht] at h
              exact Option.noConfusion h
          | some t0 =>
              simp only [ht] at h
              cases hr : reSearchTicker (pyUpper t0) with
              | some t =>
                  simp only [hr] at h
                  cases h
                  have hy := yfFetch_state env
                    (search_web env st (company ++ " stock ticker symbol") 1).1 t
                  exact ⟨hy.1.trans hs.1, hy.2.1.trans hs.2.1⟩
              | none =>
                  simp only [hr] at h
                  cases h
                  exact ⟨hs.1, hs.2.1⟩

/-- `fetch_financials` raises only on the uppercasing of a `None` title on
the first fallback-search hit: any `none` result pins that exact shape. -/
theorem fetch_financials_none (env : Env) (st : AgentState) (company : String)
    (h : fetch_financials env st company = none) :
    reSearchTicker company = none ∧
    ∃ hit rest, (search_web env st (company ++ " stock ticker symbol") 1).2 = hit :: rest ∧
      hit.title = none := by
  unfold fetch_financials at h
  cases h0 : reSearchTicker company with
  | some t =>
      simp only [h0] at h
      exact Option.noConfusion h
  | none =>
      simp only [h0] at h
      refine ⟨rfl, ?_⟩
      cases h1 : (search_web env st (company ++ " stock ticker symbol") 1).2 with
      | nil =>
          simp only [h1] at h
          exact Option.noConfusion h
      | cons hit rest =>
          simp only [h1] at h
          cases ht : hit.title with
          | none => exact ⟨hit, rest, rfl, ht⟩
          | some t0 =>
              simp only [ht] at h
              cases hr : reSearchTicker (pyUpper t0) with
              | some t =>
                  simp only [hr] at h
                  exact Option.noConfusion h
              | none =>
                  simp only [hr] at h
                  exact Option.noConfusion h

theorem llmStep_state (env : Env) (st : AgentState) (prompt : String) :
    (llmStep env st prompt).1.company_memory = st.company_memory ∧
    researchTrace (llmStep env st prompt).1.events = researchTrace st.events ∧
    yfTrace (llmStep env st prompt).1.events = yfTrace st.events := by
  simp [llmStep, pushEvent, researchTrace_append, yfTrace_append, researchTrace, yfTrace]

theorem classify_intent_state (env : Env) (st : AgentState) (user_text : String) :
    (classify_intent env st user_text).1.company_memory = st.company_memory ∧
    researchTrace (classify_intent env st user_text).1.events = researchTrace st.events := by
  unfold classify_intent
  have h := llmStep_state env st (classifyPrompt user_text)
  cases hf : pyFindChar (classifyCleaned env st user_text) lbrace with
  | none => simp only [hf]; exact ⟨h.1, h.2.1⟩
  | some start =>
      cases hp : env.jsonParse (pySlice (classifyCleaned env st user_text) start
          (classifyStop env st user_text)) with
      | some j => simp only [hf, hp]; exact ⟨h.1, h.2.1⟩
      | none => simp only [hf, hp]; exact ⟨h.1, h.2.1⟩

/-! ### Research-flow effect lemmas -/

theorem researchSearch_state (env : Env) (st : AgentState) (c : String) :
    (researchSearch env st c).1.company_memory = st.company_memory ∧
    researchTrace (researchSearch env st c).1.events = researchTrace st.events ++ [c] := by
  unfold researchSearch
  have h := search_web_state env (pushEvent st (.research c)) (c ++ " strategic analysis news") 5
  refine ⟨h.1, h.2.1.trans ?_⟩
  simp [pushEvent, researchTrace_append, researchTrace]

theorem researchFin_state (env : Env) (st : AgentState) (c : String)
    (q : AgentState × JVal) (h : researchFin env st c = some q) :
    q.1.company_memory = st.company_memory ∧
    researchTrace q.1.events = researchTrace st.events ++ [c] := by
  unfold researchFin at h
  have hf := fetch_financials_state env (researchSearch env st c).1 c q h
  have hs := researchSearch_state env st c
  exact ⟨hf.1.trans hs.1, hf.2.trans hs.2⟩

theorem researchExtractionStep_state (env : Env) (c : String)
    (sr : List SearchResult) (fin : AgentState × JVal) :
    (researchExtractionStep env c sr fin).1.company_memory = fin.1.company_memory ∧
    researchTrace (researchExtractionStep env c sr fin).1.events =
      researchTrace fin.1.events := by
  have h3 := llmStep_state env fin.1 (researchReportPrompt c sr fin.2)
  have h4 := llmStep_state env (researchNarrativeStep env c sr fin).1
    (mkJsonPrompt c (researchNarrative env c sr fin))
  exact ⟨h4.1.trans h3.1, h4.2.1.trans h3.2.1⟩

theorem researchCommit_memory (env : Env) (c : String)
    (sr : List SearchResult) (fin : AgentState × JVal) :
    (researchCommit env c sr fin).1.company_memory =
      memInsert fin.1.company_memory c
        ⟨researchNarrative env c sr fin, researchNarrative env c sr fin,
          researchJsonData env c sr fin⟩ := by
  show memInsert (researchExtractionStep env c sr fin).1.company_memory c
      ⟨researchNarrative env c sr fin, researchNarrative env c sr fin,
        researchJsonData env c sr fin⟩ =
    memInsert fin.1.company_memory c
      ⟨researchNarrative env c sr fin, researchNarrative env c sr fin,
        researchJsonData env c sr fin⟩
  rw [(researchExtractionStep_state env c sr fin).1]

theorem researchCommit_trace (env : Env) (c : String)
    (sr : List SearchResult) (fin : AgentState × JVal) :
    researchTrace (researchCommit env c sr fin).1.events =
      researchTrace fin.1.events := by
  show researchTrace (researchExtractionStep env c sr fin).1.events =
    researchTrace fin.1.events
  exact (researchExtractionStep_state env c sr fin).2

/-- A research run that returns is the commit of a completed financial
lookup. -/
theorem perform_deep_research_some (env : Env) (st : AgentState) (c : String)
    (p : AgentState × String) (h : perform_deep_research env st c = some p) :
    ∃ q, researchFin env st c = some q ∧
      p = researchCommit env c (researchSearch env st c).2 q := by
  unfold perform_deep_research at h
  obtain ⟨q, hq, hp⟩ := Option.map_eq_some'.mp h
  exact ⟨q, hq, hp.symm⟩

/-- A research crash comes from the financial lookup: the rest of the flow
is total. -/
theorem perform_deep_research_none (env : Env) (st : AgentState) (c : String)
    (h : perform_deep_research env st c = none) :
    researchFin env st c = none := by
  unfold perform_deep_research at h
  exact Option.map_eq_none'.mp h

theorem perform_deep_research_memory (env : Env) (st : AgentState) (c : String)
    (p : AgentState × String) (h : perform_deep_research env st c = some p) :
    ∃ jd, p.1.company_memory = memInsert st.company_memory c ⟨p.2, p.2, jd⟩ ∧
      memLookup p.1.company_memory c = some ⟨p.2, p.2, jd⟩ := by
  obtain ⟨q, hq, hp⟩ := perform_deep_research_some env st c p h
  subst hp
  refine ⟨researchJsonData env c (researchSearch env st c).2 q, ?_, ?_⟩
  · rw [researchCommit_memory, (researchFin_state env st c q hq).1]
    rfl
  · rw [researchCommit_memory, memLookup_memInsert_self]
    rfl

theorem perform_deep_research_trace (env : Env) (st : AgentState) (c : String)
    (p : AgentState × String) (h : perform_deep_research env st c = some p) :
    researchTrace p.1.events = researchTrace st.events ++ [c] := by
  obtain ⟨q, hq, hp⟩ := perform_deep_research_some env st c p h
  subst hp
  rw [researchCommit_trace, (researchFin_state env st c q hq).2]

/-! ### Concrete environments and states used by witnesses and counterexamples -/

/-- A minimal world: no search credentials, no DuckDuckGo module, no usable
market data, an LLM whose reply is `R<call index>`, and a `json.loads` that
rejects every string. -/
def envNil : Env :=
  { google_api_key := none, cse_id := none,
    http := fun _ _ _ => HttpResult.exn,
    ddg := none,
    yf := fun _ _ => YfOutcome.nodata,
    llm := fun idx _ => "R" ++ toString idx,
    jsonParse := fun _ => none }

/-- A world with configured credentials whose primary search serves a single
hit with a `None` title (`i.get("title")` on an item without one): the shape
on which `fetch_financials` raises. -/
def envTitleNone : Env :=
  { google_api_key := some "gk", cse_id := some "cx",
    http := fun _ _ _ => HttpResult.resp 200 (some [⟨none, none, none⟩]),
    ddg := none,
    yf := fun _ _ => YfOutcome.nodata,
    llm := fun _ _ => "",
    jsonParse := fun _ => none }

/-- A state holding one researched company `"acme"` whose stored JSON has the
single section `"overview"`. -/
def stAcme : AgentState :=
  { initState with company_memory :=
      [("acme", ⟨"t0", "orig0", JVal.obj (.cons "overview" (.str "old") .nil)⟩)] }

/-! ### Claim C8 -/

/-- Claim C8: calling `update_company_section` with a company key not present
in the Memory Store returns the error string and leaves the state (hence the
Memory Store) completely unchanged. -/
theorem C8_unknown_company_error (env : Env) (st : AgentState) (company sect : String)
    (v : JVal) (h : memLookup st.company_memory company = none) :
    update_company_section env st company sect v = some (st, "Error: Company not found") := by
  unfold update_company_section
  rw [h]

/-- Witness for C8 at the concrete input of the spec scenario. -/
theorem C8_unknown_company_error_witness :
    memLookup stAcme.company_memory "Nonexistent" = none ∧
    update_company_section envNil stAcme "Nonexistent" "overview" (JVal.str "x") =
      some (stAcme, "Error: Company not found") :=
  ⟨by decide, C8_unknown_company_error envNil stAcme "Nonexistent" "overview" (JVal.str "x") (by decide)⟩

/-! ### Claim C6 -/

/-- Claim C6: when the extraction step's output fails JSON parsing, the
research run (which completed its financial lookup and therefore commits)
stores `{"error": "Failed to parse JSON", "raw": <the unparsed text>}` as
the company's `json` and still returns the narrative report text. -/
theorem C6_parse_failure_keeps_narrative (env : Env) (st : AgentState) (company : String)
    (q : AgentState × JVal) (hfin : researchFin env st company = some q)
    (h : env.jsonParse
      (researchCleanedExtraction env company (researchSearch env st company).2 q) = none) :
    ∃ p, perform_deep_research env st company = some p ∧
      (memLookup p.1.company_memory company).map CompanyPlan.json =
        some (JVal.obj (.cons "error" (.str "Failed to parse JSON")
          (.cons "raw" (.str (researchCleanedExtraction env company
            (researchSearch env st company).2 q)) .nil))) ∧
      p.2 = researchNarrative env company (researchSearch env st company).2 q := by
  have hj : researchJsonData env company (researchSearch env st company).2 q =
      JVal.obj (.cons "error" (.str "Failed to parse JSON")
        (.cons "raw" (.str (researchCleanedExtraction env company
          (researchSearch env st company).2 q)) .nil)) := by
    unfold researchJsonData
    rw [h]
  refine ⟨researchCommit env company (researchSearch env st company).2 q, ?_, ?_, rfl⟩
  · unfold perform_deep_research
    rw [hfin]
    rfl
  · rw [researchCommit_memory, memLookup_memInsert_self, hj]
    rfl

/-- The completed financial lookup of one concrete research run. -/
def qFin : AgentState × JVal :=
  (researchFin envNil initState "acme").getD (initState, JVal.null)

/-- Witness for C6: in `envNil` the financial lookup completes and every
parse fails. -/
theorem C6_parse_failure_keeps_narrative_witness :
    researchFin envNil initState "acme" = some qFin ∧
    envNil.jsonParse
      (researchCleanedExtraction envNil "acme" (researchSearch envNil initState "acme").2 qFin) =
        none ∧
    ∃ p, perform_deep_research envNil initState "acme" = some p ∧
      (memLookup p.1.company_memory "acme").map CompanyPlan.json =
        some (JVal.obj (.cons "error" (.str "Failed to parse JSON")
          (.cons "raw" (.str (researchCleanedExtraction envNil "acme"
            (researchSearch envNil initState "acme").2 qFin)) .nil))) ∧
      p.2 = researchNarrative envNil "acme" (researchSearch envNil initState "acme").2 qFin :=
  ⟨rfl, rfl, C6_parse_failure_keeps_narrative envNil initState "acme" qFin rfl rfl⟩

/-! ### Claim C10 -/

/-- Relative totality of the comparison loop: when every research the loop
could trigger completes, the `KeyError` branch is unreachable — after an
absent company is researched its key is present. -/
theorem compareLoop_isSome_of_total (env : Env) :
    ∀ (cs : List String) (st : AgentState) (acc : JObj),
      (∀ (st' : AgentState) (c : String), c ∈ cs → perform_deep_research env st' c ≠ none) →
      (compareLoop env st cs acc).isSome = true := by
  intro cs
  induction cs with
  | nil => intro st acc _; rfl
  | cons c rest ih =>
      intro st acc htot
      unfold compareLoop
      by_cases h : (memLookup st.company_memory c).isSome = true
      · rw [if_pos h]
        obtain ⟨plan, hp⟩ := Option.isSome_iff_exists.mp h
        simp only [hp]
        exact ih _ _ (fun st' c' hc' => htot st' c' (List.mem_cons_of_mem c hc'))
      · rw [if_neg h]
        cases hpd : perform_deep_research env st c with
        | none => exact absurd hpd (htot st c (List.mem_cons_self c rest))
        | some p =>
            obtain ⟨jd, _, hlook⟩ := perform_deep_research_memory env st c p hpd
            simp only [Option.map_some', hlook]
            exact ih _ _ (fun st' c' hc' => htot st' c' (List.mem_cons_of_mem c hc'))

/-- Counterexample to claim C10 as stated: with the primary search serving a
hit whose `title` is `None`, the fallback ticker scan raises
`AttributeError` (`None.upper()`), `perform_deep_research` aborts without
storing anything, and `compare_companies` propagates the crash instead of
returning a value. -/
theorem C10_counterexample :
    perform_deep_research envTitleNone initState "acme corp" = none ∧
    compare_companies envTitleNone initState ["acme corp"] = none := by
  refine ⟨by decide, by decide⟩

/-- Claim C10 (amended): whenever `perform_deep_research` returns — and the
only thing that can stop it is the `AttributeError` from uppercasing a
`None` search-hit title inside the financial lookup, so empty search
results, error-marker financials and failing LLM replies cannot — it has
created or overwritten the entry under the exact name with the keys `text`,
`original_text` and `json`; and the direct indexing
`self.company_memory[c]` in `compare_companies` never raises a missing-key
error: when every triggered research completes, the comparison flow returns
a value. -/
theorem C10_research_stores_unless_crash :
    (∀ (env : Env) (st : AgentState) (c : String) (p : AgentState × String),
      perform_deep_research env st c = some p →
      ∃ jd, memLookup p.1.company_memory c = some ⟨p.2, p.2, jd⟩) ∧
    (∀ (env : Env) (st : AgentState) (c : String),
      perform_deep_research env st c = none →
      fetch_financials env (researchSearch env st c).1 c = none) ∧
    (∀ (env : Env) (st : AgentState) (company : String),
      fetch_financials env st company = none →
      reSearchTicker company = none ∧
      ∃ hit rest,
        (search_web env st (company ++ " stock ticker symbol") 1).2 = hit :: rest ∧
        hit.title = none) ∧
    (∀ (env : Env) (st : AgentState) (companies : List String),
      (∀ (st' : AgentState) (c : String), c ∈ companies →
        perform_deep_research env st' c ≠ none) →
      (compare_companies env st companies).isSome = true) := by
  refine ⟨?_, ?_, fetch_financials_none, ?_⟩
  · intro env st c p h
    obtain ⟨jd, _, hlook⟩ := perform_deep_research_memory env st c p h
    exact ⟨jd, hlook⟩
  · intro env st c h
    exact perform_deep_research_none env st c h
  · intro env st companies htot
    unfold compare_companies
    have h := compareLoop_isSome_of_total env companies st .nil htot
    obtain ⟨p, hp⟩ := Option.isSome_iff_exists.mp h
    rw [hp]
    rfl

/-- The result of one concrete completed research run. -/
def pResearch : AgentState × String :=
  (perform_deep_research envNil initState "acme").getD (initState, "")

/-- Witness for the amended C10: a completed run at `envNil`, the crash
shape at `envTitleNone`, and relative totality of a comparison at
`envNil`. -/
theorem C10_research_stores_unless_crash_witness :
    perform_deep_research envNil initState "acme" = some pResearch ∧
    (∃ jd, memLookup pResearch.1.company_memory "acme" =
      some ⟨pResearch.2, pResearch.2, jd⟩) ∧
    fetch_financials envTitleNone initState "acme corp" = none ∧
    (reSearchTicker "acme corp" = none ∧
      ∃ hit rest,
        (search_web envTitleNone initState ("acme corp" ++ " stock ticker symbol") 1).2 =
          hit :: rest ∧
        hit.title = none) ∧
    (compare_companies envNil initState ["acme"]).isSome = true :=
  ⟨rfl,
   C10_research_stores_unless_crash.1 envNil initState "acme" pResearch rfl,
   by decide,
   C10_research_stores_unless_crash.2.2.1 envTitleNone initState "acme corp" (by decide),
   C10_research_stores_unless_crash.2.2.2 envNil initState ["acme"]
     (fun st' c hc => by
       cases hc with
       | head => intro hn; exact Option.noConfusion hn
       | tail _ hmem => cases hmem)⟩

/-! ### Claims C1 and C2: the Section Editor and re-research effects -/

/-- Two successive dict assignments to the same key collapse to the last. -/
theorem memInsert_memInsert (m : List (String × CompanyPlan)) (k : String) (a b : CompanyPlan) :
    memInsert (memInsert m k a) k b = memInsert m k b := by
  induction m with
  | nil => simp [memInsert]
  | cons hd tl ih =>
      obtain ⟨k₀, w⟩ := hd
      by_cases h : k₀ = k
      · simp [memInsert, h]
      · simp [memInsert, h, ih]

/-- After `o.set k v` the key `k` is present. -/
theorem JObj.hasKey_set : ∀ (o : JObj) (k : String) (v : JVal), (o.set k v).hasKey k = true
  | .nil, k, v => by simp [JObj.set, JObj.hasKey]
  | .cons k' v' rest, k, v => by
      by_cases h : k' = k
      · simp [JObj.set, JObj.hasKey, h]
      · simp [JObj.set, JObj.hasKey, h, JObj.hasKey_set rest k v]

/-- Exact effect of a successful `update_company_section` on a stored entry
whose `json` is a dict: the section is assigned (added when absent), the
text is replaced by the LLM rewrite, `original_text` is carried over
unchanged, and the success string is returned. -/
theorem update_company_section_effect (env : Env) (st : AgentState) (company sect : String)
    (v : JVal) (mem : CompanyPlan) (o : JObj)
    (hm : memLookup st.company_memory company = some mem)
    (hj : mem.json = JVal.obj o) :
    update_company_section env st company sect v =
      some ({ st with
          company_memory := memInsert st.company_memory company
            ⟨env.llm st.events.length (mkEditPrompt sect (JVal.dumps (JVal.obj (o.set sect v)))),
             mem.original_text, JVal.obj (o.set sect v)⟩,
          events := st.events ++
            [ExtEvent.llmCall (mkEditPrompt sect (JVal.dumps (JVal.obj (o.set sect v))))] },
        "Report Regenerated Successfully.") := by
  unfold update_company_section
  rw [hm]
  simp only [hj, llmStep, pushEvent]
  rw [memInsert_memInsert]

/-- Claim C1 (amended): `original_text` is never modified by
`update_company_section` (for any key), but every `perform_deep_research`
call for a key overwrites the whole entry, setting `original_text` to the
fresh narrative — it is not preserved across re-research. -/
theorem C1_original_text_behavior :
    (∀ (env : Env) (st : AgentState) (company sect : String) (v : JVal) (p : AgentState × String),
      update_company_section env st company sect v = some p →
      ∀ k, (memLookup p.1.company_memory k).map CompanyPlan.original_text =
        (memLookup st.company_memory k).map CompanyPlan.original_text) ∧
    (∀ (env : Env) (st : AgentState) (c : String) (p : AgentState × String),
      perform_deep_research env st c = some p →
      (memLookup p.1.company_memory c).map CompanyPlan.original_text = some p.2) := by
  constructor
  · intro env st company sect v p h k
    cases hm : memLookup st.company_memory company with
    | none =>
        unfold update_company_section at h
        rw [hm] at h
        cases h
        rfl
    | some mem =>
        cases hj : mem.json with
        | obj o =>
            rw [update_company_section_effect env st company sect v mem o hm hj] at h
            cases h
            by_cases hk : k = company
            · subst hk
              rw [hm]
              simp only [memLookup_memInsert_self]
              rfl
            · simp only [memLookup_memInsert_ne st.company_memory company k _ hk]
        | null =>
            unfold update_company_section at h; rw [hm] at h; simp only [hj] at h
            exact Option.noConfusion h
        | boolean b =>
            unfold update_company_section at h; rw [hm] at h; simp only [hj] at h
            exact Option.noConfusion h
        | num n =>
            unfold update_company_section at h; rw [hm] at h; simp only [hj] at h
            exact Option.noConfusion h
        | str s =>
            unfold update_company_section at h; rw [hm] at h; simp only [hj] at h
            exact Option.noConfusion h
        | arr a =>
            unfold update_company_section at h; rw [hm] at h; simp only [hj] at h
            exact Option.noConfusion h
  · intro env st c p h
    obtain ⟨jd, _, hlook⟩ := perform_deep_research_memory env st c p h
    rw [hlook]
    rfl

/-- Counterexample to claim C1 as stated: in a world whose LLM answer
varies over time, a second `perform_deep_research` for the same key
overwrites `original_text`. -/
theorem C1_counterexample :
    perform_deep_research envNil initState "acme" ≠ none ∧
    perform_deep_research envNil
        ((perform_deep_research envNil initState "acme").getD (initState, "")).1 "acme" ≠ none ∧
    (memLookup ((perform_deep_research envNil initState "acme").getD
          (initState, "")).1.company_memory "acme").map CompanyPlan.original_text ≠
      (memLookup ((perform_deep_research envNil
          ((perform_deep_research envNil initState "acme").getD (initState, "")).1
          "acme").getD (initState, "")).1.company_memory "acme").map
        CompanyPlan.original_text := by
  refine ⟨by decide, by decide, by decide⟩

/-- The state-and-message pair produced by one concrete Section Editor call. -/
def pAcme : AgentState × String :=
  (update_company_section envNil stAcme "acme" "overview" (JVal.str "x")).getD (initState, "")

/-- Witness for the amended C1 at concrete inputs. -/
theorem C1_original_text_behavior_witness :
    update_company_section envNil stAcme "acme" "overview" (JVal.str "x") = some pAcme ∧
    (memLookup pAcme.1.company_memory "acme").map CompanyPlan.original_text =
      (memLookup stAcme.company_memory "acme").map CompanyPlan.original_text ∧
    perform_deep_research envNil initState "acme" = some pResearch ∧
    (memLookup pResearch.1.company_memory "acme").map CompanyPlan.original_text =
      some pResearch.2 :=
  ⟨rfl,
   C1_original_text_behavior.1 envNil stAcme "acme" "overview" (JVal.str "x") pAcme rfl "acme",
   rfl,
   C1_original_text_behavior.2 envNil initState "acme" pResearch rfl⟩

/-- Counterexample to claim C2 as stated: an edit whose section name is not
a key of the stored JSON does not produce an error and does mutate state —
the key is added and the success string is returned. -/
theorem C2_counterexample :
    jHasKey (JVal.obj (.cons "overview" (.str "old") .nil)) "bogus" = false ∧
    (update_company_section envNil stAcme "acme" "bogus" (JVal.str "x")).map Prod.snd =
      some "Report Regenerated Successfully." ∧
    (update_company_section envNil stAcme "acme" "bogus" (JVal.str "x")).map
        (fun p => (memLookup p.1.company_memory "acme").map CompanyPlan.json) =
      some (some (JVal.obj (.cons "overview" (.str "old") (.cons "bogus" (.str "x") .nil)))) := by
  refine ⟨by decide, ?_, ?_⟩ <;> decide

/-- Claim C2 (amended): with a company present and a section name that is
not a key of its stored JSON, `update_company_section` surfaces no error: it
adds the section as a new key (mutating the stored JSON), regenerates the
text, and returns the success acknowledgment. -/
theorem C2_unknown_section_adds_key (env : Env) (st : AgentState) (company sect : String)
    (v : JVal) (mem : CompanyPlan) (o : JObj)
    (hm : memLookup st.company_memory company = some mem)
    (hj : mem.json = JVal.obj o)
    (_hk : o.hasKey sect = false) :
    ∃ st', update_company_section env st company sect v =
        some (st', "Report Regenerated Successfully.") ∧
      (memLookup st'.company_memory company).map CompanyPlan.json =
        some (JVal.obj (o.set sect v)) ∧
      (o.set sect v).hasKey sect = true := by
  refine ⟨_, update_company_section_effect env st company sect v mem o hm hj, ?_, JObj.hasKey_set o sect v⟩
  simp only [memLookup_memInsert_self]
  rfl

/-- Witness for the amended C2 at concrete inputs. -/
theorem C2_unknown_section_adds_key_witness :
    memLookup stAcme.company_memory "acme" =
      some (⟨"t0", "orig0", JVal.obj (.cons "overview" (.str "old") .nil)⟩ : CompanyPlan) ∧
    (JObj.cons "overview" (.str "old") .nil).hasKey "bogus" = false ∧
    ∃ st', update_company_section envNil stAcme "acme" "bogus" (JVal.str "x") =
        some (st', "Report Regenerated Successfully.") ∧
      (memLookup st'.company_memory "acme").map CompanyPlan.json =
        some (JVal.obj ((JObj.cons "overview" (.str "old") .nil).set "bogus" (JVal.str "x"))) ∧
      ((JObj.cons "overview" (.str "old") .nil).set "bogus" (JVal.str "x")).hasKey "bogus" = true :=
  ⟨by decide, by decide,
   C2_unknown_section_adds_key envNil stAcme "acme" "bogus" (JVal.str "x")
     ⟨"t0", "orig0", JVal.obj (.cons "overview" (.str "old") .nil)⟩
     (.cons "overview" (.str "old") .nil) (by decide) rfl (by decide)⟩

/-! ### Claim C4 -/

theorem ddgTrace_append (a b : List ExtEvent) :
    ddgTrace (a ++ b) = ddgTrace a ++ ddgTrace b :=
  List.filterMap_append a b _

/-- Claim C4: primary-search success (HTTP 200 with a parseable body) returns
the mapped items at once and never touches the fallback; a primary
exception, body-parse failure or non-200 status — or missing credentials —
hands control to the DuckDuckGo fallback, whose result is returned; when the
fallback is unavailable or raises, the empty list is returned. -/
theorem C4_primary_fallback (env : Env) (st : AgentState) (query : String) (top_k : Nat) :
    (∀ items, env.google_api_key.isSome = true → env.cse_id.isSome = true →
      env.http st.events.length query top_k = HttpResult.resp 200 (some items) →
      (search_web env st query top_k).2 =
        items.map (fun i => SearchResult.mk i.title i.link i.snippet) ∧
      ddgTrace (search_web env st query top_k).1.events = ddgTrace st.events) ∧
    (env.google_api_key.isSome = true → env.cse_id.isSome = true →
      (∀ items, env.http st.events.length query top_k ≠ HttpResult.resp 200 (some items)) →
      search_web env st query top_k = searchFallback env (pushEvent st (.httpCall query)) query top_k) ∧
    ((env.google_api_key.isSome = true ∧ env.cse_id.isSome = true) = False →
      search_web env st query top_k = searchFallback env st query top_k) ∧
    (env.ddg = none → ∀ st0, searchFallback env st0 query top_k = (st0, [])) ∧
    (∀ d, env.ddg = some d → ∀ st0,
      (∀ raw, d st0.events.length query top_k = Except.ok raw →
        searchFallback env st0 query top_k =
          (logTool (pushEvent st0 (.ddgCall query)) "DuckDuckGo" query
            ("Found " ++ toString (raw.map (fun r =>
              SearchResult.mk (some r.title) (some r.href) (some r.body))).length),
           raw.map (fun r => SearchResult.mk (some r.title) (some r.href) (some r.body)))) ∧
      (∀ e, d st0.events.length query top_k = Except.error e →
        searchFallback env st0 query top_k =
          (logTool (pushEvent st0 (.ddgCall query)) "Search Error" query e, []))) := by
  refine ⟨?_, ?_, ?_, ?_, ?_⟩
  · intro items hg hc hh
    unfold search_web
    rw [hg, hc]
    simp only [Bool.and_self, if_true, hh]
    constructor
    · trivial
    · simp [logTool, pushEvent, ddgTrace_append, ddgTrace]
  · intro hg hc hne
    unfold search_web
    rw [hg, hc]
    simp only [Bool.and_self, if_true]
    cases hh : env.http st.events.length query top_k with
    | exn => rfl
    | resp status body =>
        by_cases hs : status = 200
        · subst hs
          cases body with
          | some items => exact absurd hh (hne items)
          | none => rfl
        · simp only [if_neg hs]
  · intro hcfg
    unfold search_web
    have : (env.google_api_key.isSome && env.cse_id.isSome) = false := by
      cases hg : env.google_api_key.isSome <;> cases hc : env.cse_id.isSome <;> simp_all
    rw [this]
    simp
  · intro hd st0
    unfold searchFallback
    rw [hd]
  · intro d hd st0
    constructor
    · intro raw hr
      unfold searchFallback
      simp only [hd, hr]
    · intro e hr
      unfold searchFallback
      simp only [hd, hr]

/-- A world with configured Google credentials whose search endpoint always
answers 200 with one item. -/
def envGoogle : Env :=
  { google_api_key := some "gk", cse_id := some "cx",
    http := fun _ _ _ => HttpResult.resp 200 (some [⟨some "T", some "L", some "S"⟩]),
    ddg := none,
    yf := fun _ _ => YfOutcome.nodata,
    llm := fun _ _ => "",
    jsonParse := fun _ => none }

/-- A world with no credentials whose DuckDuckGo module always raises. -/
def envDdgErr : Env :=
  { google_api_key := none, cse_id := none,
    http := fun _ _ _ => HttpResult.exn,
    ddg := some (fun _ _ _ => Except.error "boom"),
    yf := fun _ _ => YfOutcome.nodata,
    llm := fun _ _ => "",
    jsonParse := fun _ => none }

/-- Witness for C4: the primary-success conjunct at `envGoogle`, the
unconfigured conjunct at `envNil`, and the both-paths-fail conjuncts at
`envNil` and `envDdgErr`. -/
theorem C4_primary_fallback_witness :
    ((search_web envGoogle initState "q" 5).2 =
        [SearchItem.mk (some "T") (some "L") (some "S")].map
          (fun i => SearchResult.mk i.title i.link i.snippet) ∧
      ddgTrace (search_web envGoogle initState "q" 5).1.events = ddgTrace initState.events) ∧
    search_web envNil initState "q" 5 = searchFallback envNil initState "q" 5 ∧
    searchFallback envNil initState "q" 5 = (initState, []) ∧
    searchFallback envDdgErr initState "q" 5 =
      (logTool (pushEvent initState (.ddgCall "q")) "Search Error" "q" "boom", []) :=
  ⟨(C4_primary_fallback envGoogle initState "q" 5).1
      [SearchItem.mk (some "T") (some "L") (some "S")] rfl rfl rfl,
   (C4_primary_fallback envNil initState "q" 5).2.2.1 (by simp [envNil]),
   ((C4_primary_fallback envNil initState "q" 5).2.2.2.1 rfl initState),
   ((C4_primary_fallback envDdgErr initState "q" 5).2.2.2.2
      (fun _ _ _ => Except.error "boom") rfl initState).2 "boom" rfl⟩

/-! ### Claim C7 -/

/-- Claim C7 (amended): when the company string has no bare 1–5 letter
uppercase token and the fallback search yields either no hit or a first hit
whose title is a string whose UPPERCASED form has no such token (i.e. the
title has no 1–5 letter alphabetic word at all — a `None` title instead
raises before any error can be returned), `fetch_financials` returns
`{"error": "Could not detect ticker."}` and never calls the market-data
provider. -/
theorem C7_no_ticker_no_market_call (env : Env) (st : AgentState) (company : String)
    (h1 : reSearchTicker company = none)
    (h2 : ∀ hit rest, (search_web env st (company ++ " stock ticker symbol") 1).2 = hit :: rest →
      ∃ t0, hit.title = some t0 ∧ reSearchTicker (pyUpper t0) = none) :
    fetch_financials env st company =
      some ((search_web env st (company ++ " stock ticker symbol") 1).1,
        JVal.obj (.cons "error" (.str "Could not detect ticker.") .nil)) ∧
    yfTrace (search_web env st (company ++ " stock ticker symbol") 1).1.events =
      yfTrace st.events := by
  constructor
  · unfold fetch_financials
    rw [h1]
    cases hs : (search_web env st (company ++ " stock ticker symbol") 1).2 with
    | nil => simp only [hs]
    | cons hit rest =>
        obtain ⟨t0, ht, hr⟩ := h2 hit rest hs
        simp only [hs, ht, hr]
  · exact (search_web_state env st (company ++ " stock ticker symbol") 1).2.2

/-- Witness for the amended C7: no providers, so the fallback search yields
no hits at all. -/
theorem C7_no_ticker_no_market_call_witness :
    reSearchTicker "acme corp" = none ∧
    (fetch_financials envNil initState "acme corp" =
      some ((search_web envNil initState ("acme corp" ++ " stock ticker symbol") 1).1,
        JVal.obj (.cons "error" (.str "Could not detect ticker.") .nil)) ∧
    yfTrace (search_web envNil initState ("acme corp" ++ " stock ticker symbol") 1).1.events =
      yfTrace initState.events) :=
  ⟨by decide,
   C7_no_ticker_no_market_call envNil initState "acme corp" (by decide)
     (fun hit rest h => List.noConfusion h)⟩

/-- A world whose DuckDuckGo fallback returns one hit with an all-lowercase
title. -/
def envDdgHit : Env :=
  { google_api_key := none, cse_id := none,
    http := fun _ _ _ => HttpResult.exn,
    ddg := some (fun _ _ _ => Except.ok [⟨"acme stock price today", "h", "b"⟩]),
    yf := fun _ _ => YfOutcome.nodata,
    llm := fun _ _ => "",
    jsonParse := fun _ => none }

/-- Counterexample to claim C7 as stated: the company and the hit title
contain no uppercase 1–5 letter token, yet because the title is uppercased
before the scan, `fetch_financials` detects the ticker `ACME`, calls the
market-data provider, and does not return the could-not-detect error. -/
theorem C7_counterexample :
    reSearchTicker "acme corp" = none ∧
    reSearchTicker "acme stock price today" = none ∧
    (fetch_financials envDdgHit initState "acme corp").map (fun q => yfTrace q.1.events) =
      some ["ACME"] ∧
    (fetch_financials envDdgHit initState "acme corp").map Prod.snd =
      some (JVal.obj (.cons "error" (.str "No financial data available") .nil)) := by
  refine ⟨by decide, by decide, ?_, ?_⟩ <;> decide

/-! ### Claim C3 -/

/-- The two facts about `json.loads` the classifier relies on: parsing the
empty string raises, and a successfully parsed text whose first character is
`{` denotes a JSON object.  Both hold of the Python standard library. -/
def JsonLoadsSound (p : String → Option JVal) : Prop :=
  p "" = none ∧
  ∀ s j, p s = some j → s.toList.head? = some lbrace → j.isObj = true

/-- The scanner of `pyFindChar` reports an index at or past its starting
offset, and the character at that index is the one sought. -/
theorem pyFindChar_go_head (c : Char) :
    ∀ (l : List Char) (n i : Nat), pyFindChar.go c l n = some i →
      ∃ k, i = n + k ∧ (l.drop k).head? = some c := by
  intro l
  induction l with
  | nil => intro n i h; exact Option.noConfusion h
  | cons x rest ih =>
      intro n i h
      unfold pyFindChar.go at h
      by_cases hx : x = c
      · rw [if_pos hx] at h
        cases h
        exact ⟨0, by omega, by simp [hx]⟩
      · rw [if_neg hx] at h
        obtain ⟨k, hk, hh⟩ := ih (n + 1) i h
        exact ⟨k + 1, by omega, hh⟩

/-- A slice starting exactly at the first occurrence of `c` and extending at
least one character starts with `c`. -/
theorem pySlice_head (s : String) (c : Char) (i b : Nat)
    (hf : pyFindChar s c = some i) (hb : i < b) :
    (pySlice s i b).toList.head? = some c := by
  unfold pyFindChar at hf
  obtain ⟨k, hk, hh⟩ := pyFindChar_go_head c s.toList 0 i hf
  have hik : i = k := by omega
  subst hik
  unfold pySlice
  cases hd : s.toList.drop i with
  | nil => rw [hd] at hh; exact Option.noConfusion hh
  | cons y rest =>
      rw [hd] at hh
      have hy : y = c := by simpa using hh
      have hbi : b - i = (b - i - 1) + 1 := by omega
      rw [hbi]
      simp [hy]

/-- Claim C3 (amended): under the two `json.loads` facts, `classify_intent`
always returns a dict; it is either the safe default (which has both the
`intent` and `companies` keys) or exactly the object the model's JSON
denoted — and in the latter case nothing guarantees the two keys are
present. -/
theorem C3_classifier_returns_dict (env : Env) (st : AgentState) (user_text : String)
    (hp : JsonLoadsSound env.jsonParse) :
    (classify_intent env st user_text).2.isObj = true ∧
    ((classify_intent env st user_text).2 = defaultIntent ∨
      ∃ s j, env.jsonParse s = some j ∧ (classify_intent env st user_text).2 = j) := by
  unfold classify_intent
  cases hf : pyFindChar (classifyCleaned env st user_text) lbrace with
  | none => simp only [hf]; exact ⟨by trivial, Or.inl (by trivial)⟩
  | some start =>
      cases hj : env.jsonParse (pySlice (classifyCleaned env st user_text) start
          (classifyStop env st user_text)) with
      | none => simp only [hf, hj]; exact ⟨by trivial, Or.inl (by trivial)⟩
      | some j =>
          simp only [hf, hj]
          refine ⟨?_, Or.inr ⟨_, j, hj, by trivial⟩⟩
          by_cases hlt : start < classifyStop env st user_text
          · exact hp.2 _ j hj (pySlice_head _ lbrace start _ hf hlt)
          · have hempty : pySlice (classifyCleaned env st user_text) start
                (classifyStop env st user_text) = "" := by
              unfold pySlice
              have hz : classifyStop env st user_text - start = 0 := by omega
              rw [hz]
              simp
            rw [hempty, hp.1] at hj
            exact Option.noConfusion hj

/-- A world whose LLM emits well-formed JSON of the wrong shape, and whose
`json.loads` parses exactly that reply (as Python's does). -/
def envWrongShape : Env :=
  { google_api_key := none, cse_id := none,
    http := fun _ _ _ => HttpResult.exn,
    ddg := none,
    yf := fun _ _ => YfOutcome.nodata,
    llm := fun _ _ => "\x7b\"foo\": 1\x7d",
    jsonParse := fun s =>
      if s = "\x7b\"foo\": 1\x7d" then some (JVal.obj (.cons "foo" (.num 1) .nil)) else none }

/-- Counterexample to claim C3 as stated: when the model returns the valid
JSON object `{"foo": 1}` (a shape other than the contract), `classify_intent`
returns it verbatim, and the result contains neither an `intent` nor a
`companies` key.  The modelled `json.loads` satisfies both soundness
facts. -/
theorem C3_counterexample :
    (classify_intent envWrongShape initState "hi").2 =
      JVal.obj (.cons "foo" (.num 1) .nil) ∧
    jHasKey (classify_intent envWrongShape initState "hi").2 "intent" = false ∧
    jHasKey (classify_intent envWrongShape initState "hi").2 "companies" = false ∧
    JsonLoadsSound envWrongShape.jsonParse := by
  refine ⟨by decide, by decide, by decide, by decide, ?_⟩
  intro s j h hhead
  by_cases hs : s = "\x7b\"foo\": 1\x7d"
  · subst hs
    simp only [envWrongShape, if_pos rfl] at h
    cases h
    rfl
  · simp only [envWrongShape, if_neg hs] at h
    exact Option.noConfusion h

/-- Witness for the amended C3: a parser that rejects everything satisfies
the soundness facts; `classify_intent` then returns the default. -/
theorem C3_classifier_returns_dict_witness :
    JsonLoadsSound envNil.jsonParse ∧
    ((classify_intent envNil initState "hello").2.isObj = true ∧
    ((classify_intent envNil initState "hello").2 = defaultIntent ∨
      ∃ s j, envNil.jsonParse s = some j ∧ (classify_intent envNil initState "hello").2 = j)) :=
  ⟨⟨rfl, fun _ _ h _ => Option.noConfusion h⟩,
   C3_classifier_returns_dict envNil initState "hello"
     ⟨rfl, fun _ _ h _ => Option.noConfusion h⟩⟩

/-! ### Claim C9 -/

/-- Classification does not touch the memory store. -/
theorem askClassify_memory (env : Env) (st : AgentState) (user_text : String) :
    (askClassify env st user_text).1.company_memory = st.company_memory := by
  unfold askClassify
  rw [(classify_intent_state env (askChatState st user_text) user_text).1]
  rfl

/-- Classification enters no research flow. -/
theorem askClassify_trace (env : Env) (st : AgentState) (user_text : String) :
    researchTrace (askClassify env st user_text).1.events = researchTrace st.events := by
  unfold askClassify
  rw [(classify_intent_state env (askChatState st user_text) user_text).2]
  rfl

/-- Claim C9: an utterance classified as `follow_up` while the Memory Store
is non-empty is routed to `answer_followup` on the most recently inserted
company key (`list(keys)[-1]`, insertion order), and the call enters no
research flow. -/
theorem C9_followup_last_inserted (env : Env) (st : AgentState) (user_text : String)
    (hM : st.company_memory ≠ [])
    (hI : askIntent env st user_text = some (JVal.str "follow_up"))
    (cv : JVal) (hC : askCompanies env st user_text = some cv)
    (hz : (companyZero cv user_text).isSome = true) :
    ask env st user_text =
      some (answer_followup env (askClassify env st user_text).1
        ((memKeys st.company_memory).getLastD "") user_text) ∧
    researchTrace (answer_followup env (askClassify env st user_text).1
        ((memKeys st.company_memory).getLastD "") user_text).1.events =
      researchTrace st.events := by
  have hmem : (askClassify env st user_text).1.company_memory = st.company_memory :=
    askClassify_memory env st user_text
  constructor
  · unfold ask
    rw [hI, hC]
    show askDispatch env (askClassify env st user_text).1 (JVal.str "follow_up") cv user_text =
      some (answer_followup env (askClassify env st user_text).1
        ((memKeys st.company_memory).getLastD "") user_text)
    unfold askDispatch
    rw [if_neg (by decide : ¬ (JVal.str "follow_up" = JVal.str "off_topic"))]
    rw [if_neg (by decide : ¬ (JVal.str "follow_up" = JVal.str "greeting"))]
    rw [if_neg (by decide : ¬ (JVal.str "follow_up" = JVal.str "compare"))]
    unfold askTail
    obtain ⟨c0, hc0⟩ := Option.isSome_iff_exists.mp hz
    rw [hc0]
    show (if JVal.str "follow_up" = JVal.str "follow_up" ∧
            (askClassify env st user_text).1.company_memory ≠ [] then
          some (answer_followup env (askClassify env st user_text).1
            ((memKeys (askClassify env st user_text).1.company_memory).getLastD "") user_text)
        else perform_deep_research env (askClassify env st user_text).1 c0) =
      some (answer_followup env (askClassify env st user_text).1
        ((memKeys st.company_memory).getLastD "") user_text)
    rw [if_pos ⟨rfl, by rw [hmem]; exact hM⟩]
    rw [hmem]
  · unfold answer_followup
    rw [(llmStep_state env (askClassify env st user_text).1 _).2.1]
    exact askClassify_trace env st user_text

/-- A world whose LLM reply is a JSON-looking string and whose `json.loads`
always produces the follow-up intent object. -/
def envFollowup : Env :=
  { google_api_key := none, cse_id := none,
    http := fun _ _ _ => HttpResult.exn,
    ddg := none,
    yf := fun _ _ => YfOutcome.nodata,
    llm := fun _ _ => "\x7bx\x7d",
    jsonParse := fun _ =>
      some (JVal.obj (.cons "intent" (.str "follow_up")
        (.cons "companies" (.arr .nil) .nil))) }

/-- Witness for C9 at concrete inputs. -/
theorem C9_followup_last_inserted_witness :
    stAcme.company_memory ≠ [] ∧
    askIntent envFollowup stAcme "more?" = some (JVal.str "follow_up") ∧
    askCompanies envFollowup stAcme "more?" = some (JVal.arr .nil) ∧
    (companyZero (JVal.arr .nil) "more?").isSome = true ∧
    (ask envFollowup stAcme "more?" =
      some (answer_followup envFollowup (askClassify envFollowup stAcme "more?").1
        ((memKeys stAcme.company_memory).getLastD "") "more?") ∧
    researchTrace (answer_followup envFollowup (askClassify envFollowup stAcme "more?").1
        ((memKeys stAcme.company_memory).getLastD "") "more?").1.events =
      researchTrace stAcme.events) :=
  ⟨by decide, by decide, by decide, by decide,
   C9_followup_last_inserted envFollowup stAcme "more?" (by decide) (by decide)
     (JVal.arr .nil) (by decide) (by decide)⟩

/-! ### Claim C5 -/

/-- The research schedule `compare_companies` implies: walk the requested
companies in order, skip those whose key is present, and mark each absent
one as researched (after which its key is present — only presence matters,
so a placeholder plan is inserted). -/
def researchPlan (m : List (String × CompanyPlan)) : List String → List String
  | [] => []
  | c :: rest =>
      if (memLookup m c).isSome then researchPlan m rest
      else c :: researchPlan (memInsert m c ⟨"", "", JVal.null⟩) rest

/-- `researchPlan` depends only on which of the listed keys are present. -/
theorem researchPlan_congr (l : List String) :
    ∀ (m₁ m₂ : List (String × CompanyPlan)),
      (∀ k ∈ l, (memLookup m₁ k).isSome = (memLookup m₂ k).isSome) →
      researchPlan m₁ l = researchPlan m₂ l := by
  induction l with
  | nil => intro m₁ m₂ _; rfl
  | cons c rest ih =>
      intro m₁ m₂ h
      have hc := h c (List.mem_cons_self c rest)
      unfold researchPlan
      by_cases h1 : (memLookup m₁ c).isSome = true
      · rw [if_pos h1, if_pos (hc ▸ h1)]
        exact ih m₁ m₂ (fun k hk => h k (List.mem_cons_of_mem c hk))
      · rw [if_neg h1, if_neg (by rw [← hc]; exact h1)]
        congr 1
        apply ih
        intro k hk
        by_cases hkc : k = c
        · subst hkc
          simp [memLookup_memInsert_self]
        · rw [memLookup_memInsert_ne _ _ _ _ hkc, memLookup_memInsert_ne _ _ _ _ hkc]
          exact h k (List.mem_cons_of_mem c hk)

/-- On a duplicate-free request list the schedule is exactly the sublist of
companies absent from the store, in order. -/
theorem researchPlan_filter_of_nodup (l : List String) :
    ∀ (m : List (String × CompanyPlan)), l.Nodup →
      researchPlan m l = l.filter (fun c => (memLookup m c).isNone) := by
  induction l with
  | nil => intro m _; rfl
  | cons c rest ih =>
      intro m hnd
      obtain ⟨hc, hrest⟩ := List.nodup_cons.mp hnd
      unfold researchPlan
      by_cases h1 : (memLookup m c).isSome = true
      · rw [if_pos h1]
        have hno : (memLookup m c).isNone = false := by
          cases hmem : memLookup m c <;> simp_all
        rw [ih m hrest]
        simp [List.filter_cons, hno]
      · rw [if_neg h1]
        have hno : (memLookup m c).isNone = true := by
          cases hmem : memLookup m c <;> simp_all
        rw [researchPlan_congr rest (memInsert m c ⟨"", "", JVal.null⟩) m
          (fun k hk => by
            have hkc : k ≠ c := fun he => hc (he ▸ hk)
            rw [memLookup_memInsert_ne _ _ _ _ hkc])]
        rw [ih m hrest]
        simp [List.filter_cons, hno]

/-- The loop of `compare_companies` appends exactly the scheduled research
entries to the trace. -/
theorem compareLoop_trace (env : Env) :
    ∀ (cs : List String) (st : AgentState) (acc : JObj) (p : AgentState × JObj),
      compareLoop env st cs acc = some p →
      researchTrace p.1.events = researchTrace st.events ++ researchPlan st.company_memory cs := by
  intro cs
  induction cs with
  | nil =>
      intro st acc p h
      unfold compareLoop at h
      cases h
      simp [researchPlan]
  | cons c rest ih =>
      intro st acc p h
      unfold compareLoop at h
      unfold researchPlan
      by_cases h1 : (memLookup st.company_memory c).isSome = true
      · rw [if_pos h1] at h
        rw [if_pos h1]
        obtain ⟨plan, hp⟩ := Option.isSome_iff_exists.mp h1
        simp only [hp] at h
        exact ih st _ p h
      · rw [if_neg h1] at h
        rw [if_neg h1]
        cases hpd : perform_deep_research env st c with
        | none =>
            rw [hpd] at h
            exact Option.noConfusion h
        | some q =>
            obtain ⟨jd, hmem, hlook⟩ := perform_deep_research_memory env st c q hpd
            rw [hpd] at h
            simp only [Option.map_some', hlook] at h
            have htr := ih q.1 _ p h
            rw [htr, perform_deep_research_trace env st c q hpd]
            rw [researchPlan_congr rest q.1.company_memory
              (memInsert st.company_memory c ⟨"", "", JVal.null⟩)
              (fun k hk => by
                rw [hmem]
                by_cases hkc : k = c
                · subst hkc
                  simp [memLookup_memInsert_self]
                · rw [memLookup_memInsert_ne _ _ _ _ hkc, memLookup_memInsert_ne _ _ _ _ hkc])]
            simp

/-- Claim C5: a `compare_companies` run enters the research flow for none of
the companies already present in the Memory Store and exactly once for each
absent company, in the order given (for a duplicate-free request list the
scheduled companies are precisely the absent ones, in order). -/
theorem C5_compare_researches_absent_once (env : Env) (st : AgentState)
    (companies : List String) (p : AgentState × String)
    (h : compare_companies env st companies = some p) :
    researchTrace p.1.events =
      researchTrace st.events ++ researchPlan st.company_memory companies ∧
    (companies.Nodup → researchPlan st.company_memory companies =
      companies.filter (fun c => (memLookup st.company_memory c).isNone)) := by
  constructor
  · unfold compare_companies at h
    cases hq : compareLoop env st companies .nil with
    | none => rw [hq] at h; exact Option.noConfusion h
    | some q =>
        rw [hq] at h
        cases h
        have h1 := compareLoop_trace env companies st .nil q hq
        calc researchTrace (llmStep env q.1 ("Compare these companies: " ++
                JVal.dumps (.obj q.2) ++ ". Output a Markdown table and key insights.")).1.events
            = researchTrace q.1.events := (llmStep_state env q.1 _).2.1
          _ = researchTrace st.events ++ researchPlan st.company_memory companies := h1
  · intro hnd
    exact researchPlan_filter_of_nodup companies st.company_memory hnd

/-- The state-and-answer pair of one concrete comparison run. -/
def pCompare : AgentState × String :=
  (compare_companies envNil stAcme ["acme", "beta"]).getD (initState, "")

/-- Witness for C5: one present company (`acme`) and one absent (`beta`). -/
theorem C5_compare_researches_absent_once_witness :
    compare_companies envNil stAcme ["acme", "beta"] = some pCompare ∧
    (researchTrace pCompare.1.events =
      researchTrace stAcme.events ++ researchPlan stAcme.company_memory ["acme", "beta"] ∧
    (["acme", "beta"].Nodup → researchPlan stAcme.company_memory ["acme", "beta"] =
      ["acme", "beta"].filter (fun c => (memLookup stAcme.company_memory c).isNone))) :=
  ⟨rfl, C5_compare_researches_absent_once envNil stAcme ["acme", "beta"] pCompare rfl⟩
